import Mathlib

/-!
Verification development for the common-subexpression-elimination pass driver
(`CommonSubexpressionEliminationPass.cpp`).  The file shallowly embeds the
driver's data and control flow: the per-method statistics record and its merge
function `aggregate_stats`, the per-method rewrite loop of the worker lambda in
`run_pass`, the merged pure-method set handed to `SharedState`, the
copy-propagation configuration, and the top-level sequencing of `run_pass`.
The CSE engine, copy propagation and local DCE are external collaborators of
the driver; their per-iteration effect on a method body is abstracted as an
oracle, and parts of the repository whose sources are not available are
modelled from the specification, as marked on each such definition.
-/

/-- Per-method CSE statistics, mirroring the `cse_impl::Stats` fields read and
written by `aggregate_stats` and by the metric reporting in `run_pass`.
Counters are naturals; `eliminated_opcodes` maps an opcode (a number) to its
elimination count, with absent keys read as `0` exactly as a C++ map's
`operator[]` default-constructs missing entries. -/
@[ext]
structure Stats where
  results_captured : Nat
  stores_captured : Nat
  array_lengths_captured : Nat
  instructions_eliminated : Nat
  max_value_ids : Nat
  methods_using_other_tracked_location_bit : Nat
  eliminated_opcodes : Nat → Nat
  skipped_due_to_too_many_registers : Nat
  max_iterations : Nat

/-- The default-constructed `Stats()` value: all counters zero, empty
opcode map. -/
def Stats.default : Stats :=
  { results_captured := 0
    stores_captured := 0
    array_lengths_captured := 0
    instructions_eliminated := 0
    max_value_ids := 0
    methods_using_other_tracked_location_bit := 0
    eliminated_opcodes := fun _ => 0
    skipped_due_to_too_many_registers := 0
    max_iterations := 0 }

/-- The statistics merge lambda `aggregate_stats` of `run_pass` (lines
73-87): all counters are added, except `max_value_ids` and `max_iterations`
which are combined with `std::max`; the per-opcode elimination counts are
added key-wise. -/
def aggregate_stats (a b : Stats) : Stats :=
  { results_captured := a.results_captured + b.results_captured
    stores_captured := a.stores_captured + b.stores_captured
    array_lengths_captured := a.array_lengths_captured + b.array_lengths_captured
    instructions_eliminated := a.instructions_eliminated + b.instructions_eliminated
    max_value_ids := max a.max_value_ids b.max_value_ids
    methods_using_other_tracked_location_bit :=
      a.methods_using_other_tracked_location_bit +
        b.methods_using_other_tracked_location_bit
    eliminated_opcodes := fun op => a.eliminated_opcodes op + b.eliminated_opcodes op
    skipped_due_to_too_many_registers :=
      a.skipped_due_to_too_many_registers + b.skipped_due_to_too_many_registers
    max_iterations := max a.max_iterations b.max_iterations }

/-- The copy-propagation configuration record.  Modelled from the spec: the
`copy_propagation_impl::Config` header is not among the available sources; the
spec describes it as a configuration with const-class, const-string and
static-final features (enabled by default as the "default features" the driver
must switch off) plus the register-estimate bound that the driver passes to
`cse.patch`. -/
structure CopyPropConfig where
  eliminate_const_classes : Bool
  eliminate_const_strings : Bool
  static_finals : Bool
  max_estimated_registers : Nat

/-- Modelled from the spec: the default value of
`Config::max_estimated_registers` is defined in the copy-propagation header,
which is not among the available sources; the driver leaves it at its default,
and no claim depends on the concrete number. -/
def default_max_estimated_registers : Nat := 3000

/-- The `copy_prop_config` value built in `run_pass` (lines 68-71): a
default-constructed config whose `eliminate_const_classes`,
`eliminate_const_strings` and `static_finals` fields are set to `false`. -/
def copy_prop_config : CopyPropConfig :=
  { eliminate_const_classes := false
    eliminate_const_strings := false
    static_finals := false
    max_estimated_registers := default_max_estimated_registers }

/-- The view of one method that the per-method worker lambda observes and
mutates: whether `get_code()` is non-null, the `no_optimizations` rstate flag,
whether the editable CFG is currently built, an abstract identifier for the
instruction body, and a log of the configurations passed to each
copy-propagation invocation performed on the method. -/
structure MethodState where
  hasCode : Bool
  noOptimizations : Bool
  cfgBuilt : Bool
  body : Nat
  copyPropLog : List CopyPropConfig

/-- Modelled from the spec: the combined effect on a method of one engine run
(`cse.patch`) followed by copy propagation, CFG rebuild and local DCE — the
`any_changes` flag returned by `patch`, the statistics returned by
`cse.get_stats()`, and the resulting instruction body.  The engine sources are
not among the available files, so per-iteration results are abstracted as an
oracle indexed by the iteration number. -/
structure CseResult where
  any_changes : Bool
  stats : Stats
  newBody : Nat

/-- Result of the per-method worker: normal return with statistics, an
`always_assert` failure (line 105), or exhaustion of the fuel bound the model
uses to run the unbounded `while (true)` loop. -/
inductive Outcome where
  | ok (stats : Stats) (st : MethodState)
  | assertFail (st : MethodState)
  | outOfFuel (st : MethodState)

/-- The `while (true)` rewrite loop of the worker lambda (lines 102-134):
increment `max_iterations`, assert the editable CFG is built, run the engine
and merge its statistics, clear the CFG, return on no changes, otherwise run
copy propagation (logged with its configuration), rebuild the CFG, run local
DCE, and loop.  `fuel` bounds the number of iterations the model will unfold;
the C++ loop itself has no such bound. -/
def processMethodLoop (oracle : Nat → CseResult) :
    Nat → Nat → Stats → MethodState → Outcome
  | 0, _, _, st => Outcome.outOfFuel st
  | fuel+1, i, stats, st =>
    let stats1 := { stats with max_iterations := stats.max_iterations + 1 }
    if st.cfgBuilt then
      let r := oracle i
      let stats2 := aggregate_stats stats1 r.stats
      if r.any_changes then
        processMethodLoop oracle fuel (i+1) stats2
          { st with
            body := r.newBody
            cfgBuilt := true
            copyPropLog := st.copyPropLog ++ [copy_prop_config] }
      else
        Outcome.ok stats2 { st with cfgBuilt := false }
    else
      Outcome.assertFail st

/-- The per-method worker lambda of `walk::parallel::reduce_methods` (lines
90-135): a method with null code is returned untouched with empty statistics;
a method marked `no_optimizations` has its CFG cleared and is otherwise
returned untouched with empty statistics; every other method enters the
rewrite loop. -/
def processMethod (oracle : Nat → CseResult) (fuel : Nat) (st : MethodState) : Outcome :=
  if st.hasCode then
    if st.noOptimizations then
      Outcome.ok Stats.default { st with cfgBuilt := false }
    else
      processMethodLoop oracle fuel 0 Stats.default st
  else
    Outcome.ok Stats.default st

/-- Statistics carried by an outcome (empty for the abnormal cases). -/
def Outcome.stats : Outcome → Stats
  | .ok s _ => s
  | .assertFail _ => Stats.default
  | .outOfFuel _ => Stats.default

/-- Method state carried by an outcome. -/
def Outcome.state : Outcome → MethodState
  | .ok _ st => st
  | .assertFail st => st
  | .outOfFuel st => st

/-- The merged trusted-pure method set of `run_pass` (lines 58-61): the
built-in framework allow-list `get_pure_methods()` with every element of the
configuration-supplied list `conf.get_pure_methods()` inserted into it.
Method references are abstracted as numbers. -/
def merged_pure_methods (builtin : Finset Nat) (configured : List Nat) : Finset Nat :=
  configured.foldl (fun s m => insert m s) builtin

/-- The state shared read-only by all per-method workers: the pure-method set
given to the `SharedState` constructor (line 63).  Modelled from the spec for
the parts whose sources are unavailable: the barrier map and purity
classification computed by `init_scope` are opaque here. -/
structure SharedState where
  pure_methods : Finset Nat

/-- The thread-count expression at line 138 of `run_pass`:
`m_debug ? 1 : redex_parallel::default_num_threads()`. -/
def cse_num_threads (m_debug : Bool) (default_threads : Nat) : Nat :=
  if m_debug then 1 else default_threads

/-- The successive phases of `run_pass`, in program order: build all editable
CFGs (lines 54-56), construct `SharedState` from the merged pure-method set
(lines 58-63), run the `init_scope` fixed point (line 64), run the parallel
per-method workers (lines 88-138), report metrics (lines 139-162), clean up
(line 164). -/
inductive PassEvent where
  | buildAllCfgs
  | sharedStateCtor (pure_methods : Finset Nat)
  | initScope
  | runWorkers (threads : Nat)
  | reportMetrics
  | cleanup

/-- The straight-line body of `run_pass` as its sequence of phases. -/
def run_pass_trace (builtin : Finset Nat) (configured : List Nat)
    (m_debug : Bool) (default_threads : Nat) : List PassEvent :=
  [PassEvent.buildAllCfgs,
   PassEvent.sharedStateCtor (merged_pure_methods builtin configured),
   PassEvent.initScope,
   PassEvent.runWorkers (cse_num_threads m_debug default_threads),
   PassEvent.reportMetrics,
   PassEvent.cleanup]

/-- One worker invocation of `walk::parallel::reduce_methods`: the worker
derives its per-iteration engine results from the shared state it is handed
and runs the per-method loop.  Modelled from the spec for the engine part:
workers read `SharedState` and hand it back unchanged ("read-only sharing
across parallel workers"). -/
def methodWorker (engine : SharedState → MethodState → Nat → CseResult)
    (fuel : Nat) (sh : SharedState) (m : MethodState) : Stats × SharedState :=
  ((processMethod (engine sh m) fuel m).stats, sh)

/-- The `walk::parallel::reduce_methods` reduction (lines 88-138) over a list
of methods, threading the shared state through every worker invocation and
merging the per-method statistics with `aggregate_stats` starting from
`Stats{}`. -/
def reduce_methods (engine : SharedState → MethodState → Nat → CseResult)
    (fuel : Nat) (sh : SharedState) (ms : List MethodState) : Stats × SharedState :=
  ms.foldl
    (fun acc m =>
      let r := methodWorker engine fuel acc.2 m
      (aggregate_stats acc.1 r.1, r.2))
    (Stats.default, sh)

/-- An engine whose every run reports changes: `cse.patch` returns `true` on
every iteration. -/
def always_changes_cse : Nat → CseResult :=
  fun _ => { any_changes := true, stats := Stats.default, newBody := 0 }

/-- An engine whose every run reports no changes. -/
def never_changes_cse : Nat → CseResult :=
  fun _ => { any_changes := false, stats := Stats.default, newBody := 0 }

/-- A method with code, not excluded from optimization, with its editable CFG
built and an empty copy-propagation log. -/
def sample_method : MethodState :=
  { hasCode := true
    noOptimizations := false
    cfgBuilt := true
    body := 0
    copyPropLog := [] }

/-- The property that a copy-propagation configuration has the const-class,
const-string and static-final features all disabled. -/
def cp_flags_off (c : CopyPropConfig) : Prop :=
  c.eliminate_const_classes = false ∧ c.eliminate_const_strings = false ∧
    c.static_finals = false

/-- A method whose `get_code()` is null. -/
def no_code_method : MethodState :=
  { hasCode := false
    noOptimizations := false
    cfgBuilt := false
    body := 7
    copyPropLog := [] }

/-- A method with code that is flagged `no_optimizations`. -/
def no_opt_method : MethodState :=
  { hasCode := true
    noOptimizations := true
    cfgBuilt := true
    body := 3
    copyPropLog := [] }

/-- A sample statistics value with one captured result. -/
def stats_a : Stats := { Stats.default with results_captured := 1 }

/-- A sample statistics value with two loop iterations. -/
def stats_b : Stats := { Stats.default with max_iterations := 2 }

lemma aggregate_stats_assoc (a b c : Stats) :
    aggregate_stats (aggregate_stats a b) c = aggregate_stats a (aggregate_stats b c) := by
  ext <;> simp [aggregate_stats, Nat.add_assoc, Nat.max_assoc]

lemma aggregate_stats_comm (a b : Stats) :
    aggregate_stats a b = aggregate_stats b a := by
  ext <;> simp [aggregate_stats, Nat.add_comm, Nat.max_comm]

lemma aggregate_stats_default_right (a : Stats) :
    aggregate_stats a Stats.default = a := by
  ext <;> simp [aggregate_stats, Stats.default]

lemma aggregate_stats_default_left (a : Stats) :
    aggregate_stats Stats.default a = a := by
  ext <;> simp [aggregate_stats, Stats.default]

lemma foldl_aggregate_stats_perm (l₁ l₂ : List Stats) (h : List.Perm l₁ l₂) :
    l₁.foldl aggregate_stats Stats.default = l₂.foldl aggregate_stats Stats.default := by
  haveI : RightCommutative aggregate_stats :=
    ⟨fun b a₁ a₂ => by
      rw [aggregate_stats_assoc, aggregate_stats_assoc, aggregate_stats_comm a₁ a₂]⟩
  exact h.foldl_eq Stats.default

lemma foldl_aggregate_stats_max_iterations (l : List Stats) :
    ∀ s : Stats, (l.foldl aggregate_stats s).max_iterations =
      l.foldl (fun acc x => max acc x.max_iterations) s.max_iterations := by
  induction l with
  | nil => intro s; rfl
  | cons x xs ih =>
      intro s
      simpa [aggregate_stats] using ih (aggregate_stats s x)

lemma merged_pure_methods_mem (configured : List Nat) :
    ∀ (builtin : Finset Nat) (m : Nat),
      m ∈ merged_pure_methods builtin configured ↔ m ∈ builtin ∨ m ∈ configured := by
  induction configured with
  | nil => intro b m; simp [merged_pure_methods]
  | cons a c ih =>
      intro b m
      have h := ih (insert a b) m
      simp only [merged_pure_methods, List.foldl_cons] at h ⊢
      rw [h, Finset.mem_insert, List.mem_cons]
      tauto

lemma reduce_methods_foldl (engine : SharedState → MethodState → Nat → CseResult)
    (fuel : Nat) (sh : SharedState) (ms : List MethodState) :
    ∀ a : Stats,
      ms.foldl
        (fun acc m =>
          let r := methodWorker engine fuel acc.2 m
          (aggregate_stats acc.1 r.1, r.2))
        (a, sh) =
      (ms.foldl
        (fun x m => aggregate_stats x (processMethod (engine sh m) fuel m).stats) a,
       sh) := by
  induction ms with
  | nil => intro a; rfl
  | cons m ms ih =>
      intro a
      simpa [methodWorker] using ih (aggregate_stats a (processMethod (engine sh m) fuel m).stats)

lemma processMethodLoop_always_changes_ne_ok :
    ∀ (fuel i : Nat) (s : Stats) (st : MethodState) (stats : Stats) (st' : MethodState),
      processMethodLoop always_changes_cse fuel i s st ≠ Outcome.ok stats st' := by
  intro fuel
  induction fuel with
  | zero =>
      intro i s st stats st' h
      simp [processMethodLoop] at h
  | succ f ih =>
      intro i s st stats st' h
      by_cases hc : st.cfgBuilt
      · simp only [processMethodLoop, always_changes_cse, hc, if_true] at h
        exact ih _ _ _ _ _ h
      · simp [processMethodLoop, hc] at h

lemma processMethodLoop_succ (oracle : Nat → CseResult) (fuel i : Nat) (s : Stats)
    (st : MethodState) (hcfg : st.cfgBuilt = true) :
    processMethodLoop oracle (fuel+1) i s st =
      if (oracle i).any_changes then
        processMethodLoop oracle fuel (i+1)
          (aggregate_stats { s with max_iterations := s.max_iterations + 1 } (oracle i).stats)
          { st with
            body := (oracle i).newBody
            cfgBuilt := true
            copyPropLog := st.copyPropLog ++ [copy_prop_config] }
      else
        Outcome.ok
          (aggregate_stats { s with max_iterations := s.max_iterations + 1 } (oracle i).stats)
          { st with cfgBuilt := false } := by
  simp only [processMethodLoop, hcfg, if_true]

lemma processMethodLoop_converges (oracle : Nat → CseResult) :
    ∀ (k fuel i : Nat) (s : Stats) (st : MethodState),
      st.cfgBuilt = true →
      (oracle (i + k)).any_changes = false →
      (∀ j, j < k → (oracle (i + j)).any_changes = true) →
      (∀ j, j ≤ k → (oracle (i + j)).stats.max_iterations = 0) →
      k < fuel →
      ∃ stats st', processMethodLoop oracle fuel i s st = Outcome.ok stats st' ∧
        stats.max_iterations = s.max_iterations + k + 1 ∧ st'.cfgBuilt = false := by
  intro k
  induction k with
  | zero =>
      intro fuel i s st hcfg hk hmin hstats hfuel
      cases fuel with
      | zero => omega
      | succ f =>
          have hk' : (oracle i).any_changes = false := by simpa using hk
          have hs0 : (oracle i).stats.max_iterations = 0 := by
            simpa using hstats 0 (Nat.le_refl 0)
          rw [processMethodLoop_succ oracle f i s st hcfg, if_neg (by simp [hk'])]
          refine ⟨_, _, rfl, ?_, rfl⟩
          simp [aggregate_stats, hs0]
  | succ k ih =>
      intro fuel i s st hcfg hk hmin hstats hfuel
      cases fuel with
      | zero => omega
      | succ f =>
          have h0 : (oracle i).any_changes = true := by simpa using hmin 0 (Nat.succ_pos k)
          have hs0 : (oracle i).stats.max_iterations = 0 := by
            simpa using hstats 0 (Nat.zero_le _)
          rw [processMethodLoop_succ oracle f i s st hcfg, if_pos (by simp [h0])]
          have hk' : (oracle (i + 1 + k)).any_changes = false := by
            have he : i + 1 + k = i + (k + 1) := by omega
            rw [he]; exact hk
          have hmin' : ∀ j, j < k → (oracle (i + 1 + j)).any_changes = true := by
            intro j hj
            have he : i + 1 + j = i + (j + 1) := by omega
            rw [he]; exact hmin (j + 1) (by omega)
          have hstats' : ∀ j, j ≤ k → (oracle (i + 1 + j)).stats.max_iterations = 0 := by
            intro j hj
            have he : i + 1 + j = i + (j + 1) := by omega
            rw [he]; exact hstats (j + 1) (by omega)
          obtain ⟨stats, st', heq, hmi, hc'⟩ :=
            ih f (i + 1)
              (aggregate_stats { s with max_iterations := s.max_iterations + 1 }
                (oracle i).stats)
              { st with
                body := (oracle i).newBody
                cfgBuilt := true
                copyPropLog := st.copyPropLog ++ [copy_prop_config] }
              rfl hk' hmin' hstats' (by omega)
          refine ⟨stats, st', heq, ?_, hc'⟩
          have hmi2 :
              (aggregate_stats { s with max_iterations := s.max_iterations + 1 }
                (oracle i).stats).max_iterations = s.max_iterations + 1 := by
            simp [aggregate_stats, hs0]
          rw [hmi, hmi2]
          omega

lemma processMethodLoop_cfg (oracle : Nat → CseResult) :
    ∀ (fuel i : Nat) (s : Stats) (st : MethodState),
      st.cfgBuilt = true →
      (∀ st2, processMethodLoop oracle fuel i s st ≠ Outcome.assertFail st2) ∧
      (∀ stats st', processMethodLoop oracle fuel i s st = Outcome.ok stats st' →
        st'.cfgBuilt = false) := by
  intro fuel
  induction fuel with
  | zero =>
      intro i s st hcfg
      constructor
      · intro st2 h
        simp [processMethodLoop] at h
      · intro stats st' h
        simp [processMethodLoop] at h
  | succ f ih =>
      intro i s st hcfg
      rw [processMethodLoop_succ oracle f i s st hcfg]
      by_cases hch : (oracle i).any_changes = true
      · rw [if_pos (by simp [hch])]
        exact ih (i + 1) _ _ rfl
      · rw [if_neg (by simpa using hch)]
        constructor
        · intro st2 h
          simp at h
        · intro stats st' h
          cases h
          rfl

lemma cp_flags_off_copy_prop_config : cp_flags_off copy_prop_config :=
  ⟨rfl, rfl, rfl⟩

lemma processMethodLoop_log (oracle : Nat → CseResult) :
    ∀ (fuel i : Nat) (s : Stats) (st : MethodState),
      (∀ c ∈ st.copyPropLog, cp_flags_off c) →
      ∀ c ∈ (processMethodLoop oracle fuel i s st).state.copyPropLog, cp_flags_off c := by
  intro fuel
  induction fuel with
  | zero =>
      intro i s st hlog
      simpa [processMethodLoop, Outcome.state] using hlog
  | succ f ih =>
      intro i s st hlog
      by_cases hcfg : st.cfgBuilt = true
      · rw [processMethodLoop_succ oracle f i s st hcfg]
        by_cases hch : (oracle i).any_changes = true
        · rw [if_pos (by simp [hch])]
          refine ih (i + 1) _ _ ?_
          intro c hc
          rcases List.mem_append.1 hc with hc1 | hc2
          · exact hlog c hc1
          · rcases List.mem_singleton.1 hc2 with rfl
            exact cp_flags_off_copy_prop_config
        · rw [if_neg (by simpa using hch)]
          simpa [Outcome.state] using hlog
      · have hcfg' : st.cfgBuilt = false := by
          cases h : st.cfgBuilt
          · rfl
          · exact absurd h hcfg
        simp only [processMethodLoop, hcfg', Bool.false_eq_true, if_false]
        simpa [Outcome.state] using hlog

lemma reduce_methods_eq (engine : SharedState → MethodState → Nat → CseResult)
    (fuel : Nat) (sh : SharedState) (ms : List MethodState) :
    reduce_methods engine fuel sh ms =
      (ms.foldl
        (fun x m => aggregate_stats x (processMethod (engine sh m) fuel m).stats)
        Stats.default,
       sh) :=
  reduce_methods_foldl engine fuel sh ms Stats.default

/-- Claim C1, counterexample: the claim asserts the per-method rewrite loop
terminates either on a zero-substitution pass or when a safety iteration cap
is hit, the iteration counter acting as a safety bound.  The loop at lines
102-134 checks no cap: with an engine that reports changes on every
iteration, no amount of fuel makes the worker return, so no iteration cap
exists and `max_iterations` is only a statistic. -/
theorem C1_counterexample_no_iteration_cap :
    ¬ ∃ (fuel : Nat) (stats : Stats) (st' : MethodState),
      processMethod always_changes_cse fuel sample_method = Outcome.ok stats st' := by
  rintro ⟨fuel, stats, st', h⟩
  have hp : processMethod always_changes_cse fuel sample_method =
      processMethodLoop always_changes_cse fuel 0 Stats.default sample_method := rfl
  rw [hp] at h
  exact processMethodLoop_always_changes_ne_ok fuel 0 Stats.default sample_method stats st' h

/-- Claim C1 (amended): for every method processed by the rewrite driver, the
per-method rewrite loop terminates exactly when a full value-numbering pass
finds zero substitutions; the `max_iterations` counter only counts the
iterations performed (here `k + 1` when the first zero-change pass is pass
`k`) and is a statistic, not a safety bound. -/
theorem C1_loop_terminates_on_no_changes (oracle : Nat → CseResult) (st : MethodState)
    (k fuel : Nat)
    (hcode : st.hasCode = true)
    (hopt : st.noOptimizations = false)
    (hcfg : st.cfgBuilt = true)
    (hk : (oracle k).any_changes = false)
    (hmin : ∀ j, j < k → (oracle j).any_changes = true)
    (hstats : ∀ j, j ≤ k → (oracle j).stats.max_iterations = 0)
    (hfuel : k < fuel) :
    ∃ stats st', processMethod oracle fuel st = Outcome.ok stats st' ∧
      stats.max_iterations = k + 1 := by
  have hp : processMethod oracle fuel st =
      processMethodLoop oracle fuel 0 Stats.default st := by
    simp [processMethod, hcode, hopt]
  obtain ⟨stats, st', heq, hmi, -⟩ :=
    processMethodLoop_converges oracle k fuel 0 Stats.default st hcfg
      (by simpa using hk)
      (by intro j hj; simpa using hmin j hj)
      (by intro j hj; simpa using hstats j hj)
      hfuel
  refine ⟨stats, st', ?_, ?_⟩
  · rw [hp]; exact heq
  · simpa [Stats.default] using hmi

/-- Witness for the amended C1 theorem at a concrete engine and method. -/
theorem C1_loop_terminates_on_no_changes_witness :
    ∃ stats st', processMethod never_changes_cse 1 sample_method = Outcome.ok stats st' ∧
      stats.max_iterations = 1 :=
  C1_loop_terminates_on_no_changes never_changes_cse sample_method 0 1 rfl rfl rfl rfl
    (fun j hj => absurd hj (by omega)) (fun _ _ => rfl) (by omega)

/-- Claim C2: a method with a null code body is handed back to the host
pipeline unmodified (the worker returns the method state untouched) with
exactly the default statistics, and default statistics are neutral for the
merge, so the method contributes zero to every pass-level total. -/
theorem C2_null_code_untouched (oracle : Nat → CseResult) (fuel : Nat) (st : MethodState)
    (h : st.hasCode = false) :
    processMethod oracle fuel st = Outcome.ok Stats.default st ∧
    (∀ s : Stats, aggregate_stats s Stats.default = s ∧
      aggregate_stats Stats.default s = s) := by
  refine ⟨?_, fun s => ⟨aggregate_stats_default_right s, aggregate_stats_default_left s⟩⟩
  simp [processMethod, h]

/-- Witness for C2 at a concrete method without code. -/
theorem C2_null_code_untouched_witness :
    processMethod never_changes_cse 5 no_code_method =
      Outcome.ok Stats.default no_code_method ∧
    (∀ s : Stats, aggregate_stats s Stats.default = s ∧
      aggregate_stats Stats.default s = s) :=
  C2_null_code_untouched never_changes_cse 5 no_code_method rfl

/-- Claim C3: a method flagged `no_optimizations` is skipped entirely: the
worker releases the CFG state, leaves the body and everything else of the
method untouched, and returns the default statistics. -/
theorem C3_no_optimizations_skipped (oracle : Nat → CseResult) (fuel : Nat)
    (st : MethodState) (h1 : st.hasCode = true) (h2 : st.noOptimizations = true) :
    processMethod oracle fuel st = Outcome.ok Stats.default { st with cfgBuilt := false } ∧
    (processMethod oracle fuel st).state.body = st.body ∧
    (processMethod oracle fuel st).state.copyPropLog = st.copyPropLog ∧
    (processMethod oracle fuel st).stats = Stats.default := by
  have h : processMethod oracle fuel st =
      Outcome.ok Stats.default { st with cfgBuilt := false } := by
    simp [processMethod, h1, h2]
  exact ⟨h, by rw [h]; rfl, by rw [h]; rfl, by rw [h]; rfl⟩

/-- Witness for C3 at a concrete method flagged `no_optimizations`. -/
theorem C3_no_optimizations_skipped_witness :
    processMethod never_changes_cse 2 no_opt_method =
      Outcome.ok Stats.default { no_opt_method with cfgBuilt := false } ∧
    (processMethod never_changes_cse 2 no_opt_method).state.body = no_opt_method.body ∧
    (processMethod never_changes_cse 2 no_opt_method).state.copyPropLog =
      no_opt_method.copyPropLog ∧
    (processMethod never_changes_cse 2 no_opt_method).stats = Stats.default :=
  C3_no_optimizations_skipped never_changes_cse 2 no_opt_method rfl rfl

/-- Claim C4: `aggregate_stats` is associative and commutative with the
default-constructed `Stats` as identity, so folding per-method results is
invariant under permutation of the merge order. -/
theorem C4_aggregate_stats_comm_monoid :
    (∀ a b c : Stats,
      aggregate_stats (aggregate_stats a b) c = aggregate_stats a (aggregate_stats b c)) ∧
    (∀ a b : Stats, aggregate_stats a b = aggregate_stats b a) ∧
    (∀ a : Stats, aggregate_stats a Stats.default = a ∧
      aggregate_stats Stats.default a = a) ∧
    (∀ l₁ l₂ : List Stats, List.Perm l₁ l₂ →
      l₁.foldl aggregate_stats Stats.default = l₂.foldl aggregate_stats Stats.default) :=
  ⟨aggregate_stats_assoc, aggregate_stats_comm,
    fun a => ⟨aggregate_stats_default_right a, aggregate_stats_default_left a⟩,
    foldl_aggregate_stats_perm⟩

/-- Witness for C4 at a concrete pair of statistics and its swap. -/
theorem C4_aggregate_stats_comm_monoid_witness :
    [stats_a, stats_b].foldl aggregate_stats Stats.default =
      [stats_b, stats_a].foldl aggregate_stats Stats.default :=
  C4_aggregate_stats_comm_monoid.2.2.2 [stats_a, stats_b] [stats_b, stats_a]
    (List.Perm.swap stats_b stats_a [])

/-- Claim C5: the trusted-pure set handed to the `SharedState` constructor is
exactly the union of the built-in allow-list and the configured list, and in
the `run_pass` sequence this construction (phase 1) precedes the `init_scope`
fixed point (phase 2). -/
theorem C5_pure_methods_merged_before_fixed_point (builtin : Finset Nat)
    (configured : List Nat) (m_debug : Bool) (default_threads : Nat) :
    (∀ m, m ∈ merged_pure_methods builtin configured ↔ m ∈ builtin ∨ m ∈ configured) ∧
    (run_pass_trace builtin configured m_debug default_threads).get? 1 =
      some (PassEvent.sharedStateCtor (merged_pure_methods builtin configured)) ∧
    (run_pass_trace builtin configured m_debug default_threads).get? 2 =
      some PassEvent.initScope :=
  ⟨fun m => merged_pure_methods_mem configured builtin m, rfl, rfl⟩

/-- Claim C6: the configuration built at lines 68-71 disables const-class
elimination, const-string elimination and static-final propagation, and every
copy-propagation invocation performed by the per-method worker uses a
configuration with those three features disabled. -/
theorem C6_copy_prop_flags_disabled (oracle : Nat → CseResult) (fuel : Nat)
    (st : MethodState) (h : ∀ c ∈ st.copyPropLog, cp_flags_off c) :
    cp_flags_off copy_prop_config ∧
    ∀ c ∈ (processMethod oracle fuel st).state.copyPropLog, cp_flags_off c := by
  refine ⟨cp_flags_off_copy_prop_config, ?_⟩
  by_cases h1 : st.hasCode = true
  · by_cases h2 : st.noOptimizations = true
    · have he : processMethod oracle fuel st =
          Outcome.ok Stats.default { st with cfgBuilt := false } := by
        simp [processMethod, h1, h2]
      rw [he]
      simpa [Outcome.state] using h
    · have he : processMethod oracle fuel st =
          processMethodLoop oracle fuel 0 Stats.default st := by
        simp [processMethod, h1, h2]
      rw [he]
      exact processMethodLoop_log oracle fuel 0 Stats.default st h
  · have he : processMethod oracle fuel st = Outcome.ok Stats.default st := by
      simp [processMethod, h1]
    rw [he]
    simpa [Outcome.state] using h

/-- Witness for C6 at a concrete method with an empty invocation log. -/
theorem C6_copy_prop_flags_disabled_witness :
    cp_flags_off copy_prop_config ∧
    ∀ c ∈ (processMethod never_changes_cse 1 sample_method).state.copyPropLog,
      cp_flags_off c :=
  C6_copy_prop_flags_disabled never_changes_cse 1 sample_method
    (by simp [sample_method])

/-- Claim C7: the shared state is handed to every worker unchanged — the
reduction over all methods returns the shared state it started from, every
per-method result is computed from that same frozen shared state, and in the
`run_pass` sequence the `init_scope` fixed point (phase 2) precedes the worker
phase (phase 3). -/
theorem C7_shared_state_frozen (engine : SharedState → MethodState → Nat → CseResult)
    (fuel : Nat) (sh : SharedState) (ms : List MethodState)
    (builtin : Finset Nat) (configured : List Nat) (m_debug : Bool)
    (default_threads : Nat) :
    (reduce_methods engine fuel sh ms).2 = sh ∧
    (reduce_methods engine fuel sh ms).1 =
      ms.foldl
        (fun x m => aggregate_stats x (processMethod (engine sh m) fuel m).stats)
        Stats.default ∧
    (run_pass_trace builtin configured m_debug default_threads).get? 2 =
      some PassEvent.initScope ∧
    (run_pass_trace builtin configured m_debug default_threads).get? 3 =
      some (PassEvent.runWorkers (cse_num_threads m_debug default_threads)) := by
  rw [reduce_methods_eq]
  exact ⟨rfl, rfl, rfl, rfl⟩

/-- Claim C8: with the debug flag set the worker phase runs with parallelism
degree exactly 1; otherwise it runs with the host default concurrency. -/
theorem C8_debug_forces_single_thread (builtin : Finset Nat) (configured : List Nat)
    (default_threads : Nat) :
    cse_num_threads true default_threads = 1 ∧
    cse_num_threads false default_threads = default_threads ∧
    ∀ m_debug, (run_pass_trace builtin configured m_debug default_threads).get? 3 =
      some (PassEvent.runWorkers (cse_num_threads m_debug default_threads)) :=
  ⟨rfl, rfl, fun _ => rfl⟩

/-- Claim C9: in the statistics merge, `max_iterations` and `max_value_ids`
combine by maximum while every other counter combines by addition (key-wise
for the per-opcode map), so the pass-level `max_iterations` of a fold of
per-method results is the maximum, not the sum, of the per-method values. -/
theorem C9_merge_max_vs_sum :
    (∀ a b : Stats,
      (aggregate_stats a b).max_iterations = max a.max_iterations b.max_iterations ∧
      (aggregate_stats a b).max_value_ids = max a.max_value_ids b.max_value_ids ∧
      (aggregate_stats a b).results_captured = a.results_captured + b.results_captured ∧
      (aggregate_stats a b).stores_captured = a.stores_captured + b.stores_captured ∧
      (aggregate_stats a b).array_lengths_captured =
        a.array_lengths_captured + b.array_lengths_captured ∧
      (aggregate_stats a b).instructions_eliminated =
        a.instructions_eliminated + b.instructions_eliminated ∧
      (∀ op, (aggregate_stats a b).eliminated_opcodes op =
        a.eliminated_opcodes op + b.eliminated_opcodes op) ∧
      (aggregate_stats a b).skipped_due_to_too_many_registers =
        a.skipped_due_to_too_many_registers + b.skipped_due_to_too_many_registers ∧
      (aggregate_stats a b).methods_using_other_tracked_location_bit =
        a.methods_using_other_tracked_location_bit +
          b.methods_using_other_tracked_location_bit) ∧
    (∀ l : List Stats, (l.foldl aggregate_stats Stats.default).max_iterations =
      l.foldl (fun acc s => max acc s.max_iterations) 0) := by
  constructor
  · intro a b
    exact ⟨rfl, rfl, rfl, rfl, rfl, rfl, fun _ => rfl, rfl, rfl⟩
  · intro l
    simpa [Stats.default] using foldl_aggregate_stats_max_iterations l Stats.default

/-- Claim C10: for a method with code whose editable CFG is built on entry,
the worker never trips the `always_assert` at the top of an iteration (the
CFG is rebuilt before every re-entry), and on every normal return — the
`no_optimizations` skip as well as convergence — the editable CFG has been
cleared. -/
theorem C10_cfg_cleared_on_exit (oracle : Nat → CseResult) (fuel : Nat)
    (st : MethodState) (h1 : st.hasCode = true) (h2 : st.cfgBuilt = true) :
    (∀ st2, processMethod oracle fuel st ≠ Outcome.assertFail st2) ∧
    (∀ stats st', processMethod oracle fuel st = Outcome.ok stats st' →
      st'.cfgBuilt = false) := by
  by_cases hno : st.noOptimizations = true
  · have h : processMethod oracle fuel st =
        Outcome.ok Stats.default { st with cfgBuilt := false } := by
      simp [processMethod, h1, hno]
    constructor
    · intro st2 hc
      rw [h] at hc
      cases hc
    · intro stats st' hok
      rw [h] at hok
      cases hok
      rfl
  · have h : processMethod oracle fuel st =
        processMethodLoop oracle fuel 0 Stats.default st := by
      simp [processMethod, h1, hno]
    rw [h]
    exact processMethodLoop_cfg oracle fuel 0 Stats.default st h2

/-- Witness for C10 at a concrete engine and method. -/
theorem C10_cfg_cleared_on_exit_witness :
    (∀ st2, processMethod never_changes_cse 1 sample_method ≠ Outcome.assertFail st2) ∧
    (∀ stats st', processMethod never_changes_cse 1 sample_method = Outcome.ok stats st' →
      st'.cfgBuilt = false) :=
  C10_cfg_cleared_on_exit never_changes_cse 1 sample_method rfl rfl
